import Mathlib

/-!
# Keep Me Focus — verification of the rule enforcement engine

Shallow embedding of the core of the `keep-me-focus` browser extension:
the pattern matcher (`src/utils/siteRulesMatcher.ts`), the rule store and
the enforcement engine (`src/services/rulesService.ts`, exported there as
`RulesService`).  JavaScript numbers are modelled as rationals, timestamps
as rationals (milliseconds since the epoch), and the external key-value
storage as an explicit parameter.  The JavaScript regular-expression
engine is external to the repository, so regex matching is a parameter
`regexTest : String → String → Bool` threaded through every definition
that consults the matcher.
-/

namespace KeepMeFocus

/-- The ten match modes of `SiteRuleMatchType` (src/types/SiteRule.ts). -/
inductive SiteRuleMatchType where
  | equalTo
  | startsWith
  | endsWith
  | contains
  | regex
  | notEqualTo
  | notStartsWith
  | notEndsWith
  | notContains
  | notRegex
deriving DecidableEq, Repr

/-- The mutable and immutable fields attached to a `Limit` action
(src/types/SiteRule.ts, the `SiteRuleActionType.Limit` branch of
`SiteRuleAction`). -/
structure LimitAction where
  allowedMinutes : ℚ
  resetAfterMinutes : ℚ
  delayMinutes : ℚ
  usedMinutes : ℚ
  lastResetAt : ℚ
  lastUsedAt : ℚ
deriving DecidableEq, Repr

/-- The tagged union `SiteRuleAction` (src/types/SiteRule.ts). -/
inductive SiteRuleAction where
  | allow
  | block
  | limit (s : LimitAction)
deriving DecidableEq, Repr

/-- One site rule (src/types/SiteRule.ts, `SiteRule`). -/
structure SiteRule where
  id : String
  title : String
  pattern : String
  matchType : SiteRuleMatchType
  action : SiteRuleAction
  enabled : Bool
deriving DecidableEq, Repr

/-- JavaScript's `String.prototype.includes`: substring containment. -/
def containsSubstr (url pat : String) : Bool :=
  decide (pat.data <:+: url.data)

/-- The matcher table `siteRulesMatcher` (src/utils/siteRulesMatcher.ts).
`regexTest url pat` stands for `new RegExp(pat).test(url)`. -/
def siteRulesMatcher (regexTest : String → String → Bool) :
    SiteRuleMatchType → String → String → Bool
  | .equalTo, url, pat => url == pat
  | .startsWith, url, pat => url.startsWith pat
  | .endsWith, url, pat => url.endsWith pat
  | .contains, url, pat => containsSubstr url pat
  | .regex, url, pat => regexTest url pat
  | .notEqualTo, url, pat => !(url == pat)
  | .notStartsWith, url, pat => !(url.startsWith pat)
  | .notEndsWith, url, pat => !(url.endsWith pat)
  | .notContains, url, pat => !(containsSubstr url pat)
  | .notRegex, url, pat => !(regexTest url pat)

/-- `RulesService.ruleMatchWithUrl` (rulesService.ts): look the rule's match
mode up in the matcher table and apply it to the URL and the rule's
pattern.  The table is total over the ten modes, so the defensive
"no matcher found" branch of the source is unreachable. -/
def ruleMatchWithUrl (regexTest : String → String → Bool)
    (rule : SiteRule) (url : String) : Bool :=
  siteRulesMatcher regexTest rule.matchType url rule.pattern

/-- Parameters passed to `RulesService.redirectToAlertPage`
(rulesService.ts): the alert type (`"block"` or `"limit"`), the URL that
triggered the alert, the title of the rule that fired, and, for limit
alerts, the timestamp at which access will be allowed again. -/
structure AlertParams where
  type : String
  currentUrl : String
  ruleTitle : String
  allowedAt : Option ℚ
deriving DecidableEq, Repr

/-- `RulesService.updateLimitRuleUsage` (rulesService.ts), restricted to the
`LimitAction` fields it mutates.  `currentTime` is `Date.now()`.  The three
statements of the source run in order: add the elapsed gap to
`usedMinutes` when the gap is at most 30 000 ms, then zero `usedMinutes`
and stamp `lastResetAt` when the reset window has elapsed, then
unconditionally stamp `lastUsedAt`. -/
def updateLimitRuleUsage (a : LimitAction) (currentTime : ℚ) : LimitAction :=
  let a1 :=
    if currentTime - a.lastUsedAt ≤ 30000 then
      { a with usedMinutes := a.usedMinutes + (currentTime - a.lastUsedAt) / 60000 }
    else a
  let a2 :=
    if currentTime - a1.lastResetAt ≥ a1.resetAfterMinutes * 60 * 1000 then
      { a1 with usedMinutes := 0, lastResetAt := currentTime }
    else a1
  { a2 with lastUsedAt := currentTime }

/-- `RulesService.updateLimitRuleUsage` at the rule level: the mutation only
happens when the rule's action is a `Limit` action, and exactly in that
case the rule collection is persisted (`saveRules` is awaited).  The
boolean records whether the collection was persisted. -/
def updateLimitRuleUsageRule (rule : SiteRule) (currentTime : ℚ) :
    SiteRule × Bool :=
  match rule.action with
  | .limit a => ({ rule with action := .limit (updateLimitRuleUsage a currentTime) }, true)
  | _ => (rule, false)

/-- The observable outcome of `RulesService.applyLimitRule`
(rulesService.ts): a redirect to the alert page, a grant (the branch that
may start the usage-monitoring interval; the boolean records whether a new
interval is started, i.e. whether `limitRuleUpdateIntervalRunning` was
false), or a no-op because the action was not a `Limit` action. -/
inductive LimitOutcome where
  | redirect (p : AlertParams)
  | grant (startsMonitor : Bool)
  | skip
deriving DecidableEq, Repr

/-- `RulesService.applyLimitRule` (rulesService.ts): account usage first
(`updateLimitRuleUsage` mutates `rule.action` in place, so the gates below
read the post-accounting values), then the delay gate, then the quota
gate, then the grant branch.  `now` is `Date.now()`, `uptimeSec` the
uptime reported by the background script, `intervalRunning` the
`limitRuleUpdateIntervalRunning` flag.  Returns the rule as mutated by the
accounting step together with the outcome. -/
def applyLimitRule (rule : SiteRule) (currentUrl : String)
    (now uptimeSec : ℚ) (intervalRunning : Bool) : SiteRule × LimitOutcome :=
  match rule.action with
  | .limit a0 =>
    let a := updateLimitRuleUsage a0 now
    let rule2 : SiteRule := { rule with action := .limit a }
    let delaySeconds := a.delayMinutes * 60
    if delaySeconds > uptimeSec then
      (rule2, .redirect
        { type := "limit", currentUrl := currentUrl, ruleTitle := rule.title,
          allowedAt := some (now + (delaySeconds - uptimeSec) * 1000) })
    else if a.usedMinutes ≥ a.allowedMinutes then
      (rule2, .redirect
        { type := "limit", currentUrl := currentUrl, ruleTitle := rule.title,
          allowedAt := some (a.lastResetAt + a.resetAfterMinutes * 60 * 1000) })
    else
      (rule2, .grant (!intervalRunning))
  | _ => (rule, .skip)

/-- A concrete `Limit` state used to instantiate theorems: 10 minutes
allowed per 60-minute window, no startup delay, 5 minutes already used. -/
def exLimitAction : LimitAction :=
  { allowedMinutes := 10, resetAfterMinutes := 60, delayMinutes := 0,
    usedMinutes := 5, lastResetAt := 1000, lastUsedAt := 2000 }

/-- A concrete `Limit` rule wrapping `exLimitAction`. -/
def exLimitRule : SiteRule :=
  { id := "r1", title := "Limit YouTube", pattern := "youtube.com",
    matchType := .contains, action := .limit exLimitAction, enabled := true }

/-- C2: one accounting call on a `Limit` rule.  The per-field closed form of
the sequential mutation: `usedMinutes` gains `(now - lastUsedAt)/60000`
exactly when the gap is at most 30 000 ms (and is then zeroed when the
reset window has elapsed, `lastResetAt` being stamped to `now` in that
case), `lastUsedAt` is unconditionally stamped to `now`, the three policy
parameters are untouched, and the collection is persisted.  In particular
a nonnegative `usedMinutes` never increases across a gap longer than
30 000 ms. -/
theorem C2_updateLimitRuleUsage_accounting (i t p : String)
    (mt : SiteRuleMatchType) (en : Bool) (a : LimitAction) (now : ℚ) :
    updateLimitRuleUsageRule ⟨i, t, p, mt, .limit a, en⟩ now =
      (⟨i, t, p, mt, SiteRuleAction.limit
          { allowedMinutes := a.allowedMinutes
            resetAfterMinutes := a.resetAfterMinutes
            delayMinutes := a.delayMinutes
            usedMinutes :=
              if now - a.lastResetAt ≥ a.resetAfterMinutes * 60 * 1000 then 0
              else if now - a.lastUsedAt ≤ 30000 then
                a.usedMinutes + (now - a.lastUsedAt) / 60000
              else a.usedMinutes
            lastResetAt :=
              if now - a.lastResetAt ≥ a.resetAfterMinutes * 60 * 1000 then now
              else a.lastResetAt
            lastUsedAt := now }, en⟩, true)
    ∧ (30000 < now - a.lastUsedAt → 0 ≤ a.usedMinutes →
        (updateLimitRuleUsage a now).usedMinutes ≤ a.usedMinutes) := by
  constructor
  · simp only [updateLimitRuleUsageRule, updateLimitRuleUsage]
    by_cases h1 : now - a.lastUsedAt ≤ 30000 <;>
      by_cases h2 : now - a.lastResetAt ≥ a.resetAfterMinutes * 60 * 1000 <;>
      simp [h1, h2]
  · intro hgap hnonneg
    simp only [updateLimitRuleUsage]
    have h1 : ¬(now - a.lastUsedAt ≤ 30000) := not_le.mpr hgap
    by_cases h2 : now - a.lastResetAt ≥ a.resetAfterMinutes * 60 * 1000 <;>
      simp [h1, h2, hnonneg]

/-- Witness for C2 at a concrete input: the gap `10000 - 2000 = 8000 ms` is
within the 30-second freshness bound, so `8000/60000 = 2/15` minutes are
added, the 60-minute window has not elapsed, and `lastUsedAt` becomes
`10000`. -/
theorem C2_updateLimitRuleUsage_accounting_witness :
    updateLimitRuleUsageRule exLimitRule 10000 =
      (⟨"r1", "Limit YouTube", "youtube.com", .contains, SiteRuleAction.limit
          { allowedMinutes := 10, resetAfterMinutes := 60, delayMinutes := 0,
            usedMinutes := 77/15, lastResetAt := 1000, lastUsedAt := 10000 },
        true⟩, true) := by
  have h := (C2_updateLimitRuleUsage_accounting "r1" "Limit YouTube"
    "youtube.com" .contains true exLimitAction 10000).1
  rw [show exLimitRule = ⟨"r1", "Limit YouTube", "youtube.com", .contains,
        .limit exLimitAction, true⟩ from rfl, h]
  norm_num [exLimitAction]

/-- C3: when `applyLimitRule` runs on a `Limit` rule, the gates are
evaluated in order on the post-accounting state: the delay gate redirects
with `allowedAt = now + (delayMinutes*60 - uptimeSec)*1000`; otherwise the
quota gate redirects with `allowedAt = lastResetAt + resetAfterMinutes *
60000`; otherwise the check grants access.  Both redirects carry the
current URL and the rule's title. -/
theorem C3_applyLimitRule_gates (i t p : String) (mt : SiteRuleMatchType)
    (en : Bool) (a : LimitAction) (currentUrl : String) (now uptimeSec : ℚ)
    (intervalRunning : Bool) :
    ((updateLimitRuleUsage a now).delayMinutes * 60 > uptimeSec →
      applyLimitRule ⟨i, t, p, mt, .limit a, en⟩ currentUrl now uptimeSec
          intervalRunning =
        (⟨i, t, p, mt, .limit (updateLimitRuleUsage a now), en⟩,
          .redirect
            { type := "limit", currentUrl := currentUrl, ruleTitle := t,
              allowedAt := some (now +
                ((updateLimitRuleUsage a now).delayMinutes * 60 - uptimeSec) * 1000) }))
    ∧ (¬((updateLimitRuleUsage a now).delayMinutes * 60 > uptimeSec) →
        (updateLimitRuleUsage a now).usedMinutes ≥ (updateLimitRuleUsage a now).allowedMinutes →
      applyLimitRule ⟨i, t, p, mt, .limit a, en⟩ currentUrl now uptimeSec
          intervalRunning =
        (⟨i, t, p, mt, .limit (updateLimitRuleUsage a now), en⟩,
          .redirect
            { type := "limit", currentUrl := currentUrl, ruleTitle := t,
              allowedAt := some ((updateLimitRuleUsage a now).lastResetAt +
                (updateLimitRuleUsage a now).resetAfterMinutes * 60 * 1000) }))
    ∧ (¬((updateLimitRuleUsage a now).delayMinutes * 60 > uptimeSec) →
        ¬((updateLimitRuleUsage a now).usedMinutes ≥ (updateLimitRuleUsage a now).allowedMinutes) →
      applyLimitRule ⟨i, t, p, mt, .limit a, en⟩ currentUrl now uptimeSec
          intervalRunning =
        (⟨i, t, p, mt, .limit (updateLimitRuleUsage a now), en⟩,
          .grant (!intervalRunning))) := by
  refine ⟨fun h1 => ?_, fun h1 h2 => ?_, fun h1 h2 => ?_⟩
  · simp only [applyLimitRule]
    rw [if_pos h1]
  · simp only [applyLimitRule]
    rw [if_neg h1, if_pos h2]
  · simp only [applyLimitRule]
    rw [if_neg h1, if_neg h2]

/-- Witness for C3 at a concrete input: after accounting at `now = 10000`,
`usedMinutes = 77/15 < 10`, no delay is configured, so at uptime 50 s the
rule grants access and (the flag being clear) starts the monitor. -/
theorem C3_applyLimitRule_gates_witness :
    applyLimitRule exLimitRule "https://www.youtube.com/" 10000 50 false =
      (⟨"r1", "Limit YouTube", "youtube.com", .contains, SiteRuleAction.limit
          { allowedMinutes := 10, resetAfterMinutes := 60, delayMinutes := 0,
            usedMinutes := 77/15, lastResetAt := 1000, lastUsedAt := 10000 },
        true⟩, .grant true) := by
  have h := (C3_applyLimitRule_gates "r1" "Limit YouTube" "youtube.com"
      .contains true exLimitAction "https://www.youtube.com/" 10000 50 false).2.2
    (by norm_num [updateLimitRuleUsage, exLimitAction])
    (by norm_num [updateLimitRuleUsage, exLimitAction])
  rw [show exLimitRule = ⟨"r1", "Limit YouTube", "youtube.com", .contains,
        .limit exLimitAction, true⟩ from rfl, h]
  norm_num [updateLimitRuleUsage, exLimitAction]

/-- The `Limit` state of the `delay-distractions` preset
(src/config/presets.ts): `allowedMinutes: 0` is commented "No time limit,
just delay" and `resetAfterMinutes: 0` "No reset needed", matching the
field documentation in src/types/SiteRule.ts ("0 = unlimited",
"0 = no reset").  Timestamps are made concrete. -/
def delayPresetAction : LimitAction :=
  { allowedMinutes := 0, resetAfterMinutes := 0, delayMinutes := 10,
    usedMinutes := 0, lastResetAt := 1000000, lastUsedAt := 1000000 }

/-- A rule carrying the `delay-distractions` preset action. -/
def delayPresetRule : SiteRule :=
  { id := "preset1", title := "Delay Distractions (10min)",
    pattern := "youtube.com", matchType := .contains,
    action := .limit delayPresetAction, enabled := true }

/-- C4 (code behaviour at the failing input): with `allowedMinutes = 0` and
`resetAfterMinutes = 0`, once the startup delay has elapsed (uptime 3600 s
against a 10-minute delay) the engine still redirects — the quota gate
`usedMinutes ≥ allowedMinutes` holds at `0 ≥ 0` — and the accounting step
does reset: `lastResetAt` is restamped because `now - lastResetAt ≥ 0`
always holds.  This contradicts the documented meaning of 0. -/
theorem C4_zero_means_constraint_in_code :
    (applyLimitRule delayPresetRule "https://www.youtube.com/" 2000000 3600
        false).2 =
      .redirect
        { type := "limit", currentUrl := "https://www.youtube.com/",
          ruleTitle := "Delay Distractions (10min)", allowedAt := some 2000000 }
    ∧ (updateLimitRuleUsage delayPresetAction 2000000).lastResetAt = 2000000 := by
  constructor
  · norm_num [applyLimitRule, delayPresetRule, delayPresetAction,
      updateLimitRuleUsage]
  · norm_num [updateLimitRuleUsage, delayPresetAction]

/-- The rule selection of `RulesService.applyRule` (rulesService.ts):
`this.rules.find(rule => rule.enabled && this.ruleMatchWithUrl(rule,
currentUrl))` — the first stored rule, in sequence order, that is enabled
and whose pattern matches the current URL. -/
def findMatchedRule (regexTest : String → String → Bool)
    (rules : List SiteRule) (currentUrl : String) : Option SiteRule :=
  rules.find? (fun rule => rule.enabled && ruleMatchWithUrl regexTest rule currentUrl)

/-- The observable outcome of `RulesService.applyRule` on one navigation
event: no action (no enabled rule matched), an allow log, a redirect to
the alert page with reason `block`, or entry into the limit
sub-protocol. -/
inductive ApplyOutcome where
  | noAction
  | allowed (rule : SiteRule)
  | blockRedirect (p : AlertParams)
  | limitProtocol (rule : SiteRule)
deriving DecidableEq, Repr

/-- `RulesService.applyRule` (rulesService.ts): select the first enabled
matching rule, then dispatch on its action tag.  `applyBlockRule` is
inlined as the redirect it performs. -/
def applyRule (regexTest : String → String → Bool)
    (rules : List SiteRule) (currentUrl : String) : ApplyOutcome :=
  match findMatchedRule regexTest rules currentUrl with
  | none => .noAction
  | some r =>
    match r.action with
    | .allow => .allowed r
    | .block => .blockRedirect
        { type := "block", currentUrl := currentUrl, ruleTitle := r.title,
          allowedAt := none }
    | .limit _ => .limitProtocol r

/-- `List.find?` returns the first element satisfying the predicate: the
list splits as a prefix of non-satisfying elements followed by the found
element. -/
theorem find?_some_decomp {α : Type} (p : α → Bool) (l : List α) (a : α)
    (h : l.find? p = some a) :
    ∃ l1 l2, l = l1 ++ a :: l2 ∧ ∀ x ∈ l1, p x = false := by
  induction l with
  | nil => simp at h
  | cons b t ih =>
    by_cases hb : p b
    · rw [List.find?_cons_of_pos _ hb] at h
      refine ⟨[], t, ?_, by simp⟩
      simpa using (Option.some.inj h) ▸ rfl
    · rw [List.find?_cons_of_neg _ hb] at h
      obtain ⟨l1, l2, rfl, hall⟩ := ih h
      refine ⟨b :: l1, l2, rfl, ?_⟩
      intro x hx
      rcases List.mem_cons.mp hx with rfl | hx
      · simpa using hb
      · exact hall x hx

/-- C1: on one navigation event `applyRule` acts on exactly the first
enabled matching rule in stored sequence order.  The outcome is `noAction`
precisely when no stored rule is both enabled and matching (so disabled
rules are never selected), and when the selection yields a rule `r`, `r`
is enabled, matches, every earlier rule in the sequence fails to be an
enabled match, and the engine dispatches on `r`'s action. -/
theorem C1_first_enabled_match (regexTest : String → String → Bool)
    (rules : List SiteRule) (currentUrl : String) :
    (applyRule regexTest rules currentUrl = .noAction ↔
      ∀ x ∈ rules, ¬(x.enabled = true ∧ ruleMatchWithUrl regexTest x currentUrl = true))
    ∧ ∀ r, findMatchedRule regexTest rules currentUrl = some r →
        (r.enabled = true ∧ ruleMatchWithUrl regexTest r currentUrl = true
          ∧ ∃ l1 l2, rules = l1 ++ r :: l2 ∧
              ∀ x ∈ l1, ¬(x.enabled = true ∧ ruleMatchWithUrl regexTest x currentUrl = true))
        ∧ applyRule regexTest rules currentUrl =
            (match r.action with
             | .allow => .allowed r
             | .block => .blockRedirect
                 { type := "block", currentUrl := currentUrl,
                   ruleTitle := r.title, allowedAt := none }
             | .limit _ => .limitProtocol r) := by
  constructor
  · have hiff : applyRule regexTest rules currentUrl = .noAction ↔
        findMatchedRule regexTest rules currentUrl = none := by
      cases hf : findMatchedRule regexTest rules currentUrl with
      | none => simp [applyRule, hf]
      | some r => cases hr : r.action <;> simp [applyRule, hf, hr]
    rw [hiff, findMatchedRule, List.find?_eq_none]
    constructor
    · intro hall x hx hc
      have := hall x hx
      simp [hc.1, hc.2] at this
    · intro hall x hx
      have := hall x hx
      intro hc
      exact this (Bool.and_eq_true _ _ |>.mp hc)
  · intro r hf
    have hf' : rules.find?
        (fun rule => rule.enabled && ruleMatchWithUrl regexTest rule currentUrl)
          = some r := hf
    have hp := List.find?_some hf'
    simp only [Bool.and_eq_true] at hp
    obtain ⟨l1, l2, hE, hall⟩ := find?_some_decomp _ _ _ hf'
    refine ⟨⟨hp.1, hp.2, l1, l2, hE, ?_⟩, ?_⟩
    · intro x hx hc
      have := hall x hx
      simp [hc.1, hc.2] at this
    · simp [applyRule, hf]

/-- C7: every negative match mode is the pointwise boolean negation of its
positive counterpart, for every regex semantics, URL and pattern. -/
theorem C7_negative_modes_negate_positive
    (regexTest : String → String → Bool) (url pat : String) :
    siteRulesMatcher regexTest .notEqualTo url pat
        = !(siteRulesMatcher regexTest .equalTo url pat)
      ∧ siteRulesMatcher regexTest .notStartsWith url pat
        = !(siteRulesMatcher regexTest .startsWith url pat)
      ∧ siteRulesMatcher regexTest .notEndsWith url pat
        = !(siteRulesMatcher regexTest .endsWith url pat)
      ∧ siteRulesMatcher regexTest .notContains url pat
        = !(siteRulesMatcher regexTest .contains url pat)
      ∧ siteRulesMatcher regexTest .notRegex url pat
        = !(siteRulesMatcher regexTest .regex url pat) := by
  refine ⟨rfl, rfl, rfl, rfl, rfl⟩

/-- The poll period of the usage-monitoring interval: `setInterval(...,
5000)` in `RulesService.applyLimitRule`. -/
def limitMonitorIntervalMs : ℕ := 5000

/-- The monitoring state of one page context: the
`limitRuleUpdateIntervalRunning` flag of `RulesService` and the number of
usage-monitoring intervals currently scheduled (an interval is removed by
`clearInterval`). -/
structure MonitorState where
  intervalRunning : Bool
  activeLoops : ℕ
deriving DecidableEq, Repr

/-- The two events that change the monitoring state in the source: the
limit sub-protocol reaching its grant branch, and a running loop clearing
its own interval (either exit in the loop body). -/
inductive MonitorEvent where
  | grantReached
  | loopExit
deriving DecidableEq, Repr

/-- One monitoring-state transition, read off
`RulesService.applyLimitRule`: on a grant, when the flag is clear it is
set and a new interval started; when the flag is set nothing happens.  On
a loop exit, `clearInterval` removes the interval — the flag is not
touched (no statement of the source ever resets
`limitRuleUpdateIntervalRunning` to false). -/
def monitorStep (s : MonitorState) : MonitorEvent → MonitorState
  | .grantReached =>
    if s.intervalRunning then s
    else { intervalRunning := true, activeLoops := s.activeLoops + 1 }
  | .loopExit => { s with activeLoops := s.activeLoops - 1 }

/-- A sequence of monitoring events applied in order. -/
def monitorRun (s : MonitorState) (events : List MonitorEvent) : MonitorState :=
  events.foldl monitorStep s

/-- A fresh page context: flag clear, no interval scheduled. -/
def monitorInit : MonitorState := { intervalRunning := false, activeLoops := 0 }

/-- The inductive invariant of the monitoring state: a clear flag means no
interval is scheduled, and at most one interval is ever scheduled. -/
theorem monitorStep_invariant (s : MonitorState) (e : MonitorEvent)
    (h : (s.intervalRunning = false → s.activeLoops = 0) ∧ s.activeLoops ≤ 1) :
    ((monitorStep s e).intervalRunning = false → (monitorStep s e).activeLoops = 0)
      ∧ (monitorStep s e).activeLoops ≤ 1 := by
  cases e with
  | grantReached =>
    by_cases hr : s.intervalRunning
    · simpa [monitorStep, hr] using h
    · have h0 : s.activeLoops = 0 := h.1 (by simpa using hr)
      simp [monitorStep, hr, h0]
  | loopExit =>
    refine ⟨fun hflag => ?_, ?_⟩
    · have h0 : s.activeLoops = 0 := h.1 (by simpa [monitorStep] using hflag)
      simp [monitorStep, h0]
    · calc (monitorStep s .loopExit).activeLoops
          = s.activeLoops - 1 := rfl
        _ ≤ s.activeLoops := Nat.sub_le _ _
        _ ≤ 1 := h.2

/-- The invariant holds along every event sequence from any state that
satisfies it. -/
theorem monitorRun_invariant (events : List MonitorEvent) (s : MonitorState)
    (h : (s.intervalRunning = false → s.activeLoops = 0) ∧ s.activeLoops ≤ 1) :
    ((monitorRun s events).intervalRunning = false →
        (monitorRun s events).activeLoops = 0)
      ∧ (monitorRun s events).activeLoops ≤ 1 := by
  induction events generalizing s with
  | nil => exact h
  | cons e t ih => exact ih (monitorStep s e) (monitorStep_invariant s e h)

/-- C5 as amended: a grant with the flag clear starts one monitoring loop
(polled every 5000 ms); along every event sequence from a fresh page
context at most one loop is scheduled at a time; and the flag, once set,
is never cleared — a grant with the flag set starts nothing, whether or
not a loop is still scheduled. -/
theorem C5_monitor_start_once_per_context :
    limitMonitorIntervalMs = 5000
    ∧ (∀ s : MonitorState, s.intervalRunning = false →
        monitorStep s .grantReached =
          { intervalRunning := true, activeLoops := s.activeLoops + 1 })
    ∧ (∀ events : List MonitorEvent,
        (monitorRun monitorInit events).activeLoops ≤ 1)
    ∧ (∀ s : MonitorState, s.intervalRunning = true →
        monitorStep s .grantReached = s
          ∧ ∀ e, (monitorStep s e).intervalRunning = true) := by
  refine ⟨rfl, ?_, ?_, ?_⟩
  · intro s hs
    simp [monitorStep, hs]
  · intro events
    exact (monitorRun_invariant events monitorInit (by simp [monitorInit])).2
  · intro s hs
    refine ⟨by simp [monitorStep, hs], fun e => ?_⟩
    cases e <;> simp [monitorStep, hs]

/-- C5 counterexample: the claim says that after a previously started
monitoring loop has exited, a later grant with no loop running starts a
new one.  In the code the flag stays set after the loop's
`clearInterval`, so the later grant starts nothing: after
grant–exit–grant the number of scheduled loops is 0, not 1. -/
theorem C5_counterexample_no_restart_after_exit :
    (monitorRun monitorInit [.grantReached, .loopExit]).activeLoops = 0
    ∧ (monitorRun monitorInit [.grantReached, .loopExit]).intervalRunning = true
    ∧ (monitorRun monitorInit
        [.grantReached, .loopExit, .grantReached]).activeLoops = 0 :=
  ⟨rfl, rfl, rfl⟩

/-- The observable outcome of one iteration of the usage-monitoring
interval in `RulesService.applyLimitRule`: stop silently
(`clearInterval`), stop and redirect to the alert page, or account usage
and keep running (carrying the rule as updated by the accounting call). -/
inductive LoopStep where
  | stop
  | stopRedirect (p : AlertParams)
  | continueMonitoring (updated : SiteRule)
deriving DecidableEq, Repr

/-- One iteration of the `setInterval` body in
`RulesService.applyLimitRule`: rules were reloaded fresh and the rule
re-fetched by id (`freshedRule`; `none` when it no longer exists);
`currentUrl` is the URL captured at grant time and `origTitle` the
captured rule's title (the redirect uses `rule.title`, not the freshed
rule's).  Stops when the rule is gone, disabled, no longer matching, or
no longer a Limit action; stops and redirects on quota exhaustion;
otherwise accounts usage and continues. -/
def monitorIteration (regexTest : String → String → Bool)
    (freshedRule : Option SiteRule) (currentUrl origTitle : String)
    (now : ℚ) : LoopStep :=
  match freshedRule with
  | none => .stop
  | some r =>
    if !r.enabled || !ruleMatchWithUrl regexTest r currentUrl then .stop
    else
      match r.action with
      | .limit a =>
        if a.usedMinutes ≥ a.allowedMinutes then
          .stopRedirect
            { type := "limit", currentUrl := currentUrl, ruleTitle := origTitle,
              allowedAt := some (a.lastResetAt + a.resetAfterMinutes * 60 * 1000) }
        else
          .continueMonitoring
            { r with action := .limit (updateLimitRuleUsage a now) }
      | _ => .stop

/-- C6: the monitoring loop's exits.  A vanished rule stops the loop; a
disabled rule stops it; a non-matching rule stops it; an `Allow` or
`Block` action stops it silently; with an enabled, matching `Limit` rule
the loop redirects (reason `limit`, `allowedAt = lastResetAt +
resetAfterMinutes*60000` from the freshly loaded values, the captured
URL and the originally captured title) exactly on quota exhaustion, and
otherwise accounts usage and continues. -/
theorem C6_monitor_loop_exits (regexTest : String → String → Bool)
    (currentUrl origTitle : String) (now : ℚ) :
    monitorIteration regexTest none currentUrl origTitle now = .stop
    ∧ (∀ i t p (mt : SiteRuleMatchType) (act : SiteRuleAction),
        monitorIteration regexTest (some ⟨i, t, p, mt, act, false⟩)
          currentUrl origTitle now = .stop)
    ∧ (∀ i t p (mt : SiteRuleMatchType) (act : SiteRuleAction) (en : Bool),
        ruleMatchWithUrl regexTest ⟨i, t, p, mt, act, en⟩ currentUrl = false →
        monitorIteration regexTest (some ⟨i, t, p, mt, act, en⟩)
          currentUrl origTitle now = .stop)
    ∧ (∀ i t p (mt : SiteRuleMatchType) (en : Bool),
        monitorIteration regexTest (some ⟨i, t, p, mt, .allow, en⟩)
            currentUrl origTitle now = .stop
        ∧ monitorIteration regexTest (some ⟨i, t, p, mt, .block, en⟩)
            currentUrl origTitle now = .stop)
    ∧ (∀ i t p (mt : SiteRuleMatchType) (a : LimitAction),
        ruleMatchWithUrl regexTest ⟨i, t, p, mt, .limit a, true⟩ currentUrl = true →
        (a.usedMinutes ≥ a.allowedMinutes →
          monitorIteration regexTest (some ⟨i, t, p, mt, .limit a, true⟩)
              currentUrl origTitle now =
            .stopRedirect
              { type := "limit", currentUrl := currentUrl,
                ruleTitle := origTitle,
                allowedAt := some (a.lastResetAt + a.resetAfterMinutes * 60 * 1000) })
        ∧ (¬(a.usedMinutes ≥ a.allowedMinutes) →
          monitorIteration regexTest (some ⟨i, t, p, mt, .limit a, true⟩)
              currentUrl origTitle now =
            .continueMonitoring
              ⟨i, t, p, mt, .limit (updateLimitRuleUsage a now), true⟩)) := by
  refine ⟨rfl, ?_, ?_, ?_, ?_⟩
  · intro i t p mt act
    simp [monitorIteration]
  · intro i t p mt act en hm
    simp [monitorIteration, hm]
  · intro i t p mt en
    constructor
    · by_cases hm : ruleMatchWithUrl regexTest
          ⟨i, t, p, mt, SiteRuleAction.allow, en⟩ currentUrl <;>
        cases en <;> simp [monitorIteration, hm]
    · by_cases hm : ruleMatchWithUrl regexTest
          ⟨i, t, p, mt, SiteRuleAction.block, en⟩ currentUrl <;>
        cases en <;> simp [monitorIteration, hm]
  · intro i t p mt a hm
    refine ⟨fun hq => ?_, fun hq => ?_⟩
    · simp [monitorIteration, hm, hq]
    · simp [monitorIteration, hm, hq]

/-- `RulesService.reorderRules` (rulesService.ts).  First pass: for each id
of `newOrder` in order, push the first stored rule with that id (ids
absent from the store are skipped).  Second pass ("safety check"): append
every stored rule whose id no rule of the accumulated list carries yet. -/
def reorderRules (rules : List SiteRule) (newOrder : List String) :
    List SiteRule :=
  let reordered := newOrder.foldl (fun acc ruleId =>
    match rules.find? (fun r => r.id == ruleId) with
    | some rule => acc ++ [rule]
    | none => acc) []
  rules.foldl (fun acc rule =>
    if acc.any (fun r => r.id == rule.id) then acc else acc ++ [rule]) reordered

/-- The first pass of `reorderRules` is a `filterMap` of store lookups over
the requested order. -/
theorem reorder_first_pass (rules : List SiteRule) (newOrder : List String)
    (init : List SiteRule) :
    newOrder.foldl (fun acc ruleId =>
        match rules.find? (fun r => r.id == ruleId) with
        | some rule => acc ++ [rule]
        | none => acc) init =
      init ++ newOrder.filterMap (fun ruleId => rules.find? (fun r => r.id == ruleId)) := by
  induction newOrder generalizing init with
  | nil => simp
  | cons x t ih =>
    cases hx : rules.find? (fun r => r.id == x) with
    | none => simp [List.foldl_cons, hx, ih]
    | some rule => simp [List.foldl_cons, hx, ih]

/-- The second pass of `reorderRules` appends, when the remaining stored
rules carry pairwise distinct ids, exactly those rules whose id the
accumulated list does not carry. -/
theorem reorder_second_pass (l : List SiteRule) (acc : List SiteRule)
    (hl : (l.map SiteRule.id).Nodup) :
    l.foldl (fun acc rule =>
        if acc.any (fun r => r.id == rule.id) then acc else acc ++ [rule]) acc =
      acc ++ l.filter (fun rule => !acc.any (fun r => r.id == rule.id)) := by
  induction l generalizing acc with
  | nil => simp
  | cons r t ih =>
    have ht : (t.map SiteRule.id).Nodup := (List.nodup_cons.mp hl).2
    have hr : r.id ∉ t.map SiteRule.id := (List.nodup_cons.mp hl).1
    by_cases h : acc.any (fun x => x.id == r.id)
    · rw [List.foldl_cons, if_pos h, ih acc ht, List.filter_cons]
      simp [h]
    · simp only [List.foldl_cons, if_neg h, List.filter_cons]
      rw [ih (acc ++ [r]) ht]
      have hfil : t.filter (fun rule => !(acc ++ [r]).any (fun x => x.id == rule.id)) =
          t.filter (fun rule => !acc.any (fun x => x.id == rule.id)) := by
        apply List.filter_congr
        intro x hx
        have hne : (r.id == x.id) = false := by
          rw [beq_eq_false_iff_ne]
          intro hEq
          exact hr (hEq ▸ List.mem_map_of_mem SiteRule.id hx)
        simp [List.any_append, List.any_cons, hne]
      rw [hfil]
      have h' : (acc.any (fun x => x.id == r.id)) = false := by
        simpa using h
      simp [h']

/-- Membership in the first pass's output carries an id requested in
`newOrder`, and conversely every stored id requested in `newOrder` is
carried by some element of the first pass's output. -/
theorem reorder_first_pass_ids (rules : List SiteRule) (newOrder : List String)
    (r : SiteRule) (hr : r ∈ rules) :
    (newOrder.filterMap (fun ruleId => rules.find? (fun x => x.id == ruleId))).any
        (fun x => x.id == r.id) = newOrder.contains r.id := by
  by_cases hc : r.id ∈ newOrder
  · have hfind : ∃ x, rules.find? (fun y => y.id == r.id) = some x := by
      have : (rules.find? (fun y => y.id == r.id)).isSome := by
        rw [List.find?_isSome]
        exact ⟨r, hr, by simp⟩
      exact Option.isSome_iff_exists.mp this
    obtain ⟨x, hx⟩ := hfind
    have hxid := List.find?_some hx
    have hxmem : x ∈ newOrder.filterMap
        (fun ruleId => rules.find? (fun y => y.id == ruleId)) := by
      rw [List.mem_filterMap]
      exact ⟨r.id, hc, hx⟩
    have hany : (newOrder.filterMap
        (fun ruleId => rules.find? (fun y => y.id == ruleId))).any
          (fun y => y.id == r.id) = true := by
      rw [List.any_eq_true]
      exact ⟨x, hxmem, hxid⟩
    rw [hany]
    symm
    simpa using hc
  · have hany : (newOrder.filterMap
        (fun ruleId => rules.find? (fun y => y.id == ruleId))).any
          (fun y => y.id == r.id) = false := by
      rw [List.any_eq_false]
      intro x hxmem
      rw [List.mem_filterMap] at hxmem
      obtain ⟨ruleId, hmem, hfind⟩ := hxmem
      have hxid := List.find?_some hfind
      intro hcon
      have h1 : x.id = ruleId := eq_of_beq hxid
      have h2 : x.id = r.id := eq_of_beq hcon
      exact hc (h2 ▸ h1 ▸ hmem)
    rw [hany]
    symm
    simpa using hc

/-- C8: for a store whose rules carry pairwise distinct ids, `reorderRules`
produces the stored rules in the order their ids appear in the input,
followed by every stored rule whose id is missing from the input, in their
original relative order. -/
theorem C8_reorder_requested_then_missing (rules : List SiteRule)
    (newOrder : List String) (h : (rules.map SiteRule.id).Nodup) :
    reorderRules rules newOrder =
      newOrder.filterMap (fun ruleId => rules.find? (fun r => r.id == ruleId))
        ++ rules.filter (fun r => !(newOrder.contains r.id)) := by
  unfold reorderRules
  rw [reorder_first_pass rules newOrder [], List.nil_append,
    reorder_second_pass rules _ h]
  congr 1
  apply List.filter_congr
  intro r hrm
  rw [reorder_first_pass_ids rules newOrder r hrm]

/-- A concrete rule with id "a". -/
def ruleA : SiteRule :=
  { id := "a", title := "A", pattern := "a.com", matchType := .contains,
    action := .allow, enabled := true }

/-- A concrete rule with id "b". -/
def ruleB : SiteRule :=
  { id := "b", title := "B", pattern := "b.com", matchType := .contains,
    action := .block, enabled := true }

/-- A concrete rule with id "c". -/
def ruleC : SiteRule :=
  { id := "c", title := "C", pattern := "c.com", matchType := .contains,
    action := .allow, enabled := false }

/-- Witness for C8 at the spec's own example: a store ordered `[a, b, c]`
reordered by `[c, a]` yields `[c, a, b]` — the omitted id `b` is appended
at the end. -/
theorem C8_reorder_requested_then_missing_witness :
    reorderRules [ruleA, ruleB, ruleC] ["c", "a"] = [ruleC, ruleA, ruleB] := by
  rw [C8_reorder_requested_then_missing [ruleA, ruleB, ruleC] ["c", "a"]
    (by simp [ruleA, ruleB, ruleC])]
  simp [ruleA, ruleB, ruleC, List.filterMap, List.find?, List.filter]

/-- The result of one read of the external key-value store
(`browser.storage.sync.get`): the stored value when the read succeeds
(`none` when the key is absent), or a thrown error. -/
inductive StorageReadResult (α : Type) where
  | ok (value : Option α)
  | failure
deriving DecidableEq, Repr

/-- `RulesService.loadRules` (rulesService.ts) as a function of the storage
read's outcome.  Returns the pair (new in-memory cache, value the promise
resolves with): on success the stored sequence (`|| []` turns an absent
key into the empty sequence), on a caught error the empty sequence; the
error is logged, never re-thrown. -/
def loadRules (readResult : StorageReadResult (List SiteRule)) :
    List SiteRule × List SiteRule :=
  match readResult with
  | .ok (some rs) => (rs, rs)
  | .ok none => ([], [])
  | .failure => ([], [])

/-- The observable outcome of `RulesService.saveRules`: whether the promise
resolves normally, and the in-memory sequence afterwards. -/
structure SaveOutcome where
  resolved : Bool
  rules : List SiteRule
deriving DecidableEq, Repr

/-- `RulesService.saveRules` (rulesService.ts) as a function of whether the
storage write throws: in both branches the promise resolves normally (the
catch block only logs) and the in-memory sequence is untouched. -/
def saveRules (rules : List SiteRule) (writeFails : Bool) : SaveOutcome :=
  if writeFails then { resolved := true, rules := rules }
  else { resolved := true, rules := rules }

/-- C9: `loadRules` never propagates a storage failure — a failed read or
an absent key both yield the empty sequence as cache and as result — and
`saveRules` swallows storage failures, resolving normally with the
in-memory sequence unchanged. -/
theorem C9_load_save_swallow_failures :
    (∀ rs : List SiteRule, loadRules (.ok (some rs)) = (rs, rs))
    ∧ loadRules (.ok none) = ([], [])
    ∧ loadRules .failure = ([], [])
    ∧ ∀ (rs : List SiteRule) (writeFails : Bool),
        saveRules rs writeFails = { resolved := true, rules := rs } := by
  refine ⟨fun rs => rfl, rfl, rfl, fun rs writeFails => ?_⟩
  cases writeFails <;> rfl

/-- The partial update record `Partial<Omit<SiteRule, 'id'>>` accepted by
`RulesService.updateRule`: each field is either absent or supplies a new
value. -/
structure SiteRuleUpdates where
  title : Option String
  pattern : Option String
  matchType : Option SiteRuleMatchType
  action : Option SiteRuleAction
  enabled : Option Bool
deriving DecidableEq, Repr

/-- The spread `{ ...this.rules[index], ...updates }`: fields present in
the update win, the id cannot be replaced (it is excluded from the update
type). -/
def applyUpdates (r : SiteRule) (u : SiteRuleUpdates) : SiteRule :=
  { id := r.id
    title := u.title.getD r.title
    pattern := u.pattern.getD r.pattern
    matchType := u.matchType.getD r.matchType
    action := u.action.getD r.action
    enabled := u.enabled.getD r.enabled }

/-- `RulesService.updateRule` (rulesService.ts): find the index of the
first rule with the given id; if none, return `null` without touching the
sequence or saving; otherwise replace that rule by its spread-updated
copy, persist, and return the updated rule.  Result: (returned rule or
`null`, the sequence afterwards, whether `saveRules` was called). -/
def updateRule : List SiteRule → String → SiteRuleUpdates →
    Option SiteRule × List SiteRule × Bool
  | [], _, _ => (none, [], false)
  | r :: rest, ruleId, u =>
    if r.id == ruleId then
      (some (applyUpdates r u), applyUpdates r u :: rest, true)
    else
      match updateRule rest ruleId u with
      | (result, rest2, saved) => (result, r :: rest2, saved)

/-- `RulesService.deleteRule` (rulesService.ts): replace the sequence by
its filtered copy; when the length shrank, persist and return true,
otherwise return false without saving.  Result: (returned boolean, the
sequence afterwards, whether `saveRules` was called). -/
def deleteRule (rules : List SiteRule) (ruleId : String) :
    Bool × List SiteRule × Bool :=
  let filtered := rules.filter (fun r => !(r.id == ruleId))
  if filtered.length ≠ rules.length then (true, filtered, true)
  else (false, filtered, false)

/-- `RulesService.toggleRule` (rulesService.ts): find the rule; if absent
return `null` without touching anything, otherwise delegate to
`updateRule` with the negated enabled flag. -/
def toggleRule (rules : List SiteRule) (ruleId : String) :
    Option SiteRule × List SiteRule × Bool :=
  match rules.find? (fun r => r.id == ruleId) with
  | none => (none, rules, false)
  | some r => updateRule rules ruleId ⟨none, none, none, none, some (!r.enabled)⟩

/-- C10: when no stored rule carries the given id, `updateRule` and
`toggleRule` return `null` and `deleteRule` returns false, and in each
case the stored sequence is unchanged and no save to external storage is
performed. -/
theorem C10_not_found_changes_nothing (rules : List SiteRule)
    (ruleId : String) (u : SiteRuleUpdates)
    (h : ∀ r ∈ rules, r.id ≠ ruleId) :
    updateRule rules ruleId u = (none, rules, false)
    ∧ deleteRule rules ruleId = (false, rules, false)
    ∧ toggleRule rules ruleId = (none, rules, false) := by
  have hfalse : ∀ r ∈ rules, (r.id == ruleId) = false := by
    intro r hr
    rw [beq_eq_false_iff_ne]
    exact h r hr
  refine ⟨?_, ?_, ?_⟩
  · induction rules with
    | nil => rfl
    | cons r rest ih =>
      rw [updateRule, if_neg ?_]
      · rw [ih ?_ ?_]
        · intro x hx
          exact h x (List.mem_cons_of_mem r hx)
        · intro x hx
          exact hfalse x (List.mem_cons_of_mem r hx)
      · simp [hfalse r (List.mem_cons_self r rest)]
  · have hfil : rules.filter (fun r => !(r.id == ruleId)) = rules := by
      rw [List.filter_eq_self]
      intro r hr
      simp [hfalse r hr]
    rw [deleteRule]
    simp [hfil]
  · rw [toggleRule, List.find?_eq_none.mpr ?_]
    intro r hr
    simp [hfalse r hr]

/-- Witness for C10 at a concrete input: no rule of the two-element store
carries the id "zzz", so all three operations are no-ops. -/
theorem C10_not_found_changes_nothing_witness :
    updateRule [ruleA, ruleB] "zzz" ⟨none, none, none, none, some false⟩ =
        (none, [ruleA, ruleB], false)
    ∧ deleteRule [ruleA, ruleB] "zzz" = (false, [ruleA, ruleB], false)
    ∧ toggleRule [ruleA, ruleB] "zzz" = (none, [ruleA, ruleB], false) :=
  C10_not_found_changes_nothing [ruleA, ruleB] "zzz"
    ⟨none, none, none, none, some false⟩
    (by intro r hr; rcases List.mem_pair.mp hr with rfl | rfl <;> simp [ruleA, ruleB])

end KeepMeFocus
